import Mathlib

/-!
Shallow embedding of the Discord bot supervisor (`src/unnamed/part_000`)
and the worker's token-resolution entry (`src/discord-bot/src/index.ts`).

The supervisor keeps an in-memory `Map<string, ChildProcess>` keyed by
`agentId` (`processes`, line 20), fetches the desired set of configs from
Convex (`fetchActiveConfigs`, lines 22-40), spawns one child per desired
config (`spawnBot`, lines 42-63), kills children no longer desired
(`stopMissing`, lines 65-73), and repeats this on a timer (`reconcile`,
lines 75-83).  A healthcheck HTTP server (lines 93-96) reports the current
registry keys.  Each `spawnBot` wires an exit observer that deletes the
registry entry by key (lines 59-62).

JavaScript's `Map` is embedded as an association list in insertion order:
`Map.has`/`Map.get` test or return the (unique) entry for a key,
`Map.set` appends a fresh key, `Map.delete` and the `stopMissing` loop
remove entries by key (deleting while iterating a JS Map is well defined
and equivalent to a filter).  Side effects (process creation, SIGTERM,
log lines) are recorded in an event trace returned next to the new state.
-/

namespace Supervisor

/-- One running child process as the supervisor sees it: the OS pid and
the identity parameters it was launched with (lines 44-53). -/
structure Handle where
  pid : Nat
  agentId : String
  clientId : String
deriving DecidableEq, Repr

/-- The `processes` map (line 20), in `Map` insertion order. -/
abbrev Registry := List (String × Handle)

/-- One record of `discord:listActiveConfigs`, after the
`{ agentId: String(c.agentId), clientId: String(c.clientId) }` projection
of line 35. -/
structure BotConfig where
  agentId : String
  clientId : String
deriving DecidableEq, Repr

/-- Observable actions and log lines of the supervisor. -/
inductive Ev where
  /-- `spawn(cmd, args, { env, stdio: 'pipe' })` created a process (line 53). -/
  | spawned (agentId clientId : String) (pid : Nat)
  /-- `child.kill('SIGTERM')` (line 69). -/
  | sigterm (agentId : String) (pid : Nat)
  /-- `log.info(..., 'Spawned Discord bot process')` (line 55). -/
  | logSpawned (agentId : String)
  /-- `log.info(..., 'Stopping bot (no longer active)')` (line 68). -/
  | logStopping (agentId : String)
  /-- `log.warn(..., 'Bot process exited')` (line 60). -/
  | logExited (agentId : String)
  /-- `log.error(..., 'Failed to fetch active Discord configs from Convex')` (line 37). -/
  | logFetchFailed
deriving DecidableEq, Repr

/-- Supervisor state: the registry plus a pid supply for fresh processes. -/
structure SupState where
  processes : Registry
  nextPid : Nat
deriving DecidableEq, Repr

/-- State at supervisor start: `new Map()` (line 20). -/
def initState : SupState := ⟨[], 0⟩

/-- `processes.has(agentId)` (line 43). -/
def hasKey (r : Registry) (id : String) : Bool :=
  r.any (fun p => p.1 == id)

/-- `processes.get(agentId)`: the entry stored under a key. -/
def lookupReg (r : Registry) (id : String) : Option Handle :=
  match r with
  | [] => none
  | p :: rest => if p.1 == id then some p.2 else lookupReg rest id

/-- `Array.from(processes.keys())` (line 95). -/
def regKeys (r : Registry) : List String :=
  r.map (fun p => p.1)

/-! ### Config fetch (`fetchActiveConfigs`, lines 22-40) -/

/-- A raw element of the JSON list, with the `String(...)` coercions of
line 35 already applied. -/
structure RawItem where
  agentId : String
  clientId : String
deriving DecidableEq, Repr

/-- What `data?.value ?? data` evaluates to once `resp.json()` succeeded:
`null`/`undefined`, an array, or some other (truthy) value. -/
inductive JsonValue where
  | jnull
  | jlist (items : List RawItem)
  | jother
deriving DecidableEq, Repr

/-- Outcome of `await resp.json()` (line 33): rejection or a parsed value. -/
inductive BodyResult where
  | invalid
  | parsed (v : JsonValue)
deriving DecidableEq, Repr

/-- Outcome of the `undiciFetch` call (lines 24-28): a network-level
rejection, or an HTTP response with a status and a body. -/
inductive FetchOutcome where
  | netError
  | response (status : Nat) (body : BodyResult)
deriving DecidableEq, Repr

/-- `resp.ok`: status in the inclusive range 200-299. -/
def respOk (status : Nat) : Bool :=
  200 ≤ status && status < 300

/-- The body of the `try` block of `fetchActiveConfigs` (lines 24-35).
`.error` is a thrown exception / rejected promise:
* a network failure rejects the `await` of line 24;
* `!resp.ok` throws at line 31;
* a body that is not JSON rejects `resp.json()` at line 33;
* a truthy non-array `data?.value ?? data` makes `.map` throw at line 35;
* a `null` body is coalesced to `[]` by `(list || [])` at line 35;
* an array is mapped elementwise to `{ agentId, clientId }` records. -/
def fetchBody : FetchOutcome → Except String (List BotConfig)
  | .netError => .error "fetch failed"
  | .response status body =>
    if !respOk status then .error "Convex listActiveConfigs failed"
    else
      match body with
      | .invalid => .error "invalid json"
      | .parsed .jother => .error "list.map is not a function"
      | .parsed .jnull => .ok []
      | .parsed (.jlist items) =>
        .ok (items.map (fun c => ⟨c.agentId, c.clientId⟩))

/-- `fetchActiveConfigs` (lines 22-40): the `catch` of lines 36-39 turns
every failure into a logged error and an empty list, so the function is
total — it never raises to `reconcile`. -/
def fetchActiveConfigs (o : FetchOutcome) : List BotConfig × List Ev :=
  match fetchBody o with
  | .ok l => (l, [])
  | .error _ => ([], [Ev.logFetchFailed])

/-! ### Child environment (`spawnBot` lines 44-50) and the worker's
token resolution (`src/discord-bot/src/index.ts` lines 12-14) -/

/-- A process environment: a JS object, i.e. key-unique assoc list. -/
abbrev Env := List (String × String)

/-- One `key: value` override in a JS object literal after a spread:
replaces the binding if the key exists, otherwise appends it. -/
def setKV (e : Env) (k v : String) : Env :=
  if e.any (fun p => p.1 == k) then
    e.map (fun p => if p.1 == k then (k, v) else p)
  else
    e ++ [(k, v)]

/-- Property lookup on a JS object embedded as an assoc list. -/
def lookupKV (e : Env) (k : String) : Option String :=
  match e with
  | [] => none
  | p :: rest => if p.1 == k then some p.2 else lookupKV rest k

/-- The child environment of lines 44-50:
`{ ...process.env, AGENT_ID: agentId, DISCORD_CLIENT_ID: clientId,
   DISCORD_TOKEN: '' }`. -/
def childEnv (parent : Env) (agentId clientId : String) : Env :=
  setKV (setKV (setKV parent "AGENT_ID" agentId)
      "DISCORD_CLIENT_ID" clientId)
    "DISCORD_TOKEN" ""

/-- The worker's decision at `src/discord-bot/src/index.ts` lines 13-14:
`const direct = process.env.DISCORD_TOKEN;
 if (direct && direct.trim().length > 0) return direct` —
`true` iff the worker uses the environment token instead of resolving its
own from Convex. -/
def usesEnvToken (direct : Option String) : Bool :=
  match direct with
  | none => false
  | some d => d != "" && d.trim != ""

/-! ### Process lifecycle -/

/-- `spawnBot` (lines 42-63): a no-op when the identity is already in the
registry (line 43); otherwise spawns a fresh process and inserts it
(lines 53-55).  The exit observer it registers is `onExit` below. -/
def spawnBot (s : SupState) (agentId clientId : String) : SupState × List Ev :=
  if hasKey s.processes agentId then (s, [])
  else
    let child : Handle := ⟨s.nextPid, agentId, clientId⟩
    ({ processes := s.processes ++ [(agentId, child)], nextPid := s.nextPid + 1 },
     [Ev.spawned agentId clientId s.nextPid, Ev.logSpawned agentId])

/-- `stopMissing` (lines 65-73): every registry entry whose key is not in
`desired` is sent SIGTERM and deleted.  Deleting entries of a JS `Map`
while iterating it visits each entry exactly once, so the loop is a
filter. -/
def stopMissing (s : SupState) (desired : List String) : SupState × List Ev :=
  let victims := s.processes.filter (fun p => !(desired.contains p.1))
  ({ s with processes := s.processes.filter (fun p => desired.contains p.1) },
   (victims.map (fun p => [Ev.logStopping p.1, Ev.sigterm p.1 p.2.pid])).flatten)

/-- The `for (const c of configs) { desired.add(c.agentId); spawnBot(...) }`
loop of lines 78-81. -/
def spawnLoop (s : SupState) (configs : List BotConfig) : SupState × List Ev :=
  match configs with
  | [] => (s, [])
  | c :: rest =>
    let r1 := spawnBot s c.agentId c.clientId
    let r2 := spawnLoop r1.1 rest
    (r2.1, r1.2 ++ r2.2)

/-- The `desired` set built by the loop of lines 78-81; the source's
`Set<string>` is only ever consulted through `has`, so a list with the
same members is a faithful embedding. -/
def desiredIds (configs : List BotConfig) : List String :=
  configs.map (fun c => c.agentId)

/-- One reconciliation pass over an already-fetched config list
(lines 77-82): launch every desired config, then stop the rest. -/
def reconcilePass (s : SupState) (configs : List BotConfig) : SupState × List Ev :=
  let r1 := spawnLoop s configs
  let r2 := stopMissing r1.1 (desiredIds configs)
  (r2.1, r1.2 ++ r2.2)

/-- `reconcile` (lines 75-83), from the fetch outcome of this tick. -/
def reconcile (s : SupState) (o : FetchOutcome) : SupState × List Ev :=
  let fetched := fetchActiveConfigs o
  let r := reconcilePass s fetched.1
  (r.1, fetched.2 ++ r.2)

/-- The `child.on('exit', ...)` observer (lines 59-62): logs a warning and
runs `processes.delete(agentId)`.  The closure captures only `agentId`,
never the `child` handle, so deletion is unconditional by key. -/
def onExit (s : SupState) (agentId : String) : SupState × List Ev :=
  ({ s with processes := s.processes.filter (fun p => !(p.1 == agentId)) },
   [Ev.logExited agentId])

/-- Identities whose processes were created during a trace. -/
def startedIds (t : List Ev) : List String :=
  t.filterMap (fun e => match e with | .spawned a _ _ => some a | _ => none)

/-- Identities that were sent SIGTERM during a trace. -/
def stoppedIds (t : List Ev) : List String :=
  t.filterMap (fun e => match e with | .sigterm a _ => some a | _ => none)

/-! ### Liveness endpoint (lines 93-96) -/

/-- The healthcheck response: `res.writeHead(200, ...)` and
`res.end(JSON.stringify({ ok: true, processes: Array.from(processes.keys()) }))`. -/
structure HealthResponse where
  status : Nat
  ok : Bool
  processes : List String
deriving DecidableEq, Repr

/-- The request handler of lines 93-96: it reads `processes` and returns
the state it was given — the supervisor state is threaded through to make
the absence of mutation expressible. -/
def healthHandler (s : SupState) : HealthResponse × SupState :=
  (⟨200, true, regKeys s.processes⟩, s)

/-- Supervisor states reachable from startup: the initial empty registry,
followed by any interleaving of reconciliation ticks (lines 87-89) and
asynchronous child-exit callbacks (lines 59-62); JS runs each of these to
completion on the single event-loop thread. -/
inductive Reach : SupState → Prop where
  | init : Reach initState
  | tick (s : SupState) (o : FetchOutcome) : Reach s → Reach (reconcile s o).1
  | exit (s : SupState) (a : String) : Reach s → Reach (onExit s a).1

/-! ### Concrete scenario states (used by witnesses and counterexamples) -/

/-- A registry with bots `A` (pid 0) and `B` (pid 1) running. -/
def regAB : Registry := [("A", ⟨0, "A", "cA"⟩), ("B", ⟨1, "B", "cB"⟩)]

/-- A supervisor state with `A` and `B` running. -/
def stateAB : SupState := ⟨regAB, 2⟩

/-- A successful fetch whose desired set is `{B, C}`. -/
def fetchBC : FetchOutcome :=
  .response 200 (.parsed (.jlist [⟨"B", "cB"⟩, ⟨"C", "cC"⟩]))

/-- A successful fetch whose desired set is `{A}`. -/
def fetchA : FetchOutcome :=
  .response 200 (.parsed (.jlist [⟨"A", "c1"⟩]))

/-- The state after one tick from startup with desired set `{A}`. -/
def stateA : SupState := (reconcile initState fetchA).1

/-- Stale-handle scenario, step 1: from startup, a tick launches `A`
(the spawned process has pid 0). -/
def staleTick1 : SupState := (reconcilePass initState [⟨"agentA", "c1"⟩]).1

/-- Stale-handle scenario, step 2: a tick with empty desired set sends
SIGTERM to `A`'s pid-0 process and removes the entry. -/
def staleTick2 : SupState := (reconcilePass staleTick1 []).1

/-- Stale-handle scenario, step 3: a tick with `A` desired again spawns a
new process for `A` (pid 1) — while the pid-0 process's `exit` event has
not fired yet. -/
def staleTick3 : SupState := (reconcilePass staleTick2 [⟨"agentA", "c1"⟩]).1

/-! ### Registry lemmas -/

theorem hasKey_iff_mem (r : Registry) (id : String) :
    hasKey r id = true ↔ id ∈ regKeys r := by
  simp [hasKey, regKeys, List.any_eq_true]

theorem hasKey_append (r r2 : Registry) (id : String) :
    hasKey (r ++ r2) id = (hasKey r id || hasKey r2 id) := by
  simp [hasKey, List.any_append]

theorem hasKey_of_lookup {r : Registry} {id : String} {h : Handle}
    (hl : lookupReg r id = some h) : hasKey r id = true := by
  induction r with
  | nil => simp [lookupReg] at hl
  | cons p rest ih =>
    by_cases hp : p.1 = id
    · simp [hasKey, hp]
    · simp only [lookupReg, hp] at hl
      simp only [beq_iff_eq, hp, if_false] at hl
      have := ih hl
      simp [hasKey] at this ⊢
      exact Or.inr this

theorem lookupReg_append_some {r : Registry} {id : String} {h : Handle}
    (hl : lookupReg r id = some h) (r2 : Registry) :
    lookupReg (r ++ r2) id = some h := by
  induction r with
  | nil => simp [lookupReg] at hl
  | cons p rest ih =>
    by_cases hp : p.1 = id
    · simp only [lookupReg, hp] at hl
      simp only [List.cons_append, lookupReg, hp]
      simpa using hl
    · simp only [lookupReg, beq_iff_eq, hp, if_false] at hl
      simp only [List.cons_append, lookupReg, beq_iff_eq, hp, if_false]
      exact ih hl

theorem lookupReg_filter_key (r : Registry) (q : String → Bool) (id : String) :
    lookupReg (r.filter (fun p => q p.1)) id
      = if q id then lookupReg r id else none := by
  induction r with
  | nil => simp [lookupReg]
  | cons p rest ih =>
    by_cases hp : p.1 = id
    · by_cases hq : q id = true <;> simp [List.filter_cons, lookupReg, hp, hq, ih]
    · by_cases hqp : q p.1 = true <;> by_cases hq : q id = true <;>
        simp [List.filter_cons, lookupReg, hp, hqp, hq, ih]

theorem regKeys_append (r r2 : Registry) :
    regKeys (r ++ r2) = regKeys r ++ regKeys r2 := by
  simp [regKeys]

theorem regKeys_filter_key (r : Registry) (q : String → Bool) :
    regKeys (r.filter (fun p => q p.1)) = (regKeys r).filter q := by
  induction r with
  | nil => rfl
  | cons p rest ih =>
    by_cases hq : q p.1 = true <;> simp [List.filter_cons, regKeys, hq, ih] <;>
      simpa [regKeys] using ih

/-! ### Trace lemmas -/

theorem startedIds_append (t1 t2 : List Ev) :
    startedIds (t1 ++ t2) = startedIds t1 ++ startedIds t2 := by
  simp [startedIds]

theorem stoppedIds_append (t1 t2 : List Ev) :
    stoppedIds (t1 ++ t2) = stoppedIds t1 ++ stoppedIds t2 := by
  simp [stoppedIds]

/-! ### spawnBot and spawnLoop lemmas -/

theorem spawnBot_of_hasKey {s : SupState} {a : String} (cid : String)
    (h : hasKey s.processes a = true) : spawnBot s a cid = (s, []) := by
  simp [spawnBot, h]

theorem spawnBot_of_not_hasKey {s : SupState} {a : String} (cid : String)
    (h : hasKey s.processes a = false) :
    spawnBot s a cid =
      ({ processes := s.processes ++ [(a, ⟨s.nextPid, a, cid⟩)],
         nextPid := s.nextPid + 1 },
       [Ev.spawned a cid s.nextPid, Ev.logSpawned a]) := by
  simp [spawnBot, h]

theorem hasKey_spawnLoop (cs : List BotConfig) (s : SupState) (id : String) :
    hasKey (spawnLoop s cs).1.processes id = true
      ↔ hasKey s.processes id = true ∨ id ∈ desiredIds cs := by
  induction cs generalizing s with
  | nil => simp [spawnLoop, desiredIds]
  | cons c rest ih =>
    simp only [spawnLoop]
    by_cases hk : hasKey s.processes c.agentId = true
    · rw [spawnBot_of_hasKey c.clientId hk]
      simp only [desiredIds, List.map_cons, List.mem_cons]
      rw [ih]
      constructor
      · rintro (hs | hr)
        · exact Or.inl hs
        · exact Or.inr (Or.inr hr)
      · rintro (hs | hceq | hr)
        · exact Or.inl hs
        · exact Or.inl (by rw [hceq]; exact hk)
        · simpa [desiredIds] using Or.inr hr
    · have hk' : hasKey s.processes c.agentId = false := by simpa using hk
      rw [spawnBot_of_not_hasKey c.clientId hk']
      rw [ih]
      by_cases hid : id = c.agentId
      · subst hid
        simp [hasKey_append, hasKey, desiredIds]
      · simp only [desiredIds, List.map_cons, List.mem_cons]
        have hsing : hasKey [(c.agentId, (⟨s.nextPid, c.agentId, c.clientId⟩ : Handle))] id = false := by
          simp [hasKey]
          exact fun hc => hid hc.symm
        simp [hasKey_append, hsing, hid, desiredIds]

theorem spawnLoop_lookup_some (cs : List BotConfig) (s : SupState)
    {id : String} {h : Handle} (hl : lookupReg s.processes id = some h) :
    lookupReg (spawnLoop s cs).1.processes id = some h := by
  induction cs generalizing s with
  | nil => simpa [spawnLoop] using hl
  | cons c rest ih =>
    simp only [spawnLoop]
    by_cases hk : hasKey s.processes c.agentId = true
    · rw [spawnBot_of_hasKey c.clientId hk]
      exact ih s hl
    · have hk' : hasKey s.processes c.agentId = false := by simpa using hk
      rw [spawnBot_of_not_hasKey c.clientId hk']
      exact ih _ (lookupReg_append_some hl _)

theorem spawnLoop_startedIds (cs : List BotConfig) (s : SupState) (id : String) :
    id ∈ startedIds (spawnLoop s cs).2
      ↔ id ∈ desiredIds cs ∧ hasKey s.processes id = false := by
  induction cs generalizing s with
  | nil => simp [spawnLoop, startedIds, desiredIds]
  | cons c rest ih =>
    simp only [spawnLoop]
    by_cases hk : hasKey s.processes c.agentId = true
    · rw [spawnBot_of_hasKey c.clientId hk]
      by_cases hid : id = c.agentId
      · subst hid
        simp [ih, desiredIds, hk]
      · simp only [List.nil_append]
        rw [ih]
        simp [desiredIds, hid]
    · have hk' : hasKey s.processes c.agentId = false := by simpa using hk
      rw [spawnBot_of_not_hasKey c.clientId hk']
      simp only [startedIds, List.filterMap_cons, List.filterMap_append,
        List.filterMap_nil, List.cons_append, List.nil_append, List.mem_cons] at ih ⊢
      rw [ih]
      by_cases hid : id = c.agentId
      · subst hid
        simp [desiredIds, hk']
      · have hsing : hasKey [(c.agentId, (⟨s.nextPid, c.agentId, c.clientId⟩ : Handle))] id = false := by
          simp [hasKey]
          exact fun hc => hid hc.symm
        simp [hasKey_append, hsing, hid, desiredIds]

theorem spawnLoop_stoppedIds (cs : List BotConfig) (s : SupState) :
    stoppedIds (spawnLoop s cs).2 = [] := by
  induction cs generalizing s with
  | nil => simp [spawnLoop, stoppedIds]
  | cons c rest ih =>
    simp only [spawnLoop]
    by_cases hk : hasKey s.processes c.agentId = true
    · rw [spawnBot_of_hasKey c.clientId hk]
      simpa using ih s
    · have hk' : hasKey s.processes c.agentId = false := by simpa using hk
      rw [spawnBot_of_not_hasKey c.clientId hk']
      simp [stoppedIds, List.filterMap_cons, List.filterMap_append]
      simpa [stoppedIds] using ih _

theorem spawnLoop_noop (cs : List BotConfig) (s : SupState)
    (h : ∀ c ∈ cs, hasKey s.processes c.agentId = true) :
    spawnLoop s cs = (s, []) := by
  induction cs with
  | nil => rfl
  | cons c rest ih =>
    simp only [spawnLoop]
    rw [spawnBot_of_hasKey c.clientId (h c (List.mem_cons_self c rest))]
    rw [ih (fun c' hc' => h c' (List.mem_cons_of_mem c hc'))]
    rfl

/-! ### stopMissing lemmas -/

theorem stoppedIds_stopTrace (v : List (String × Handle)) :
    stoppedIds ((v.map (fun p => [Ev.logStopping p.1, Ev.sigterm p.1 p.2.pid])).flatten)
      = v.map (fun p => p.1) := by
  induction v with
  | nil => rfl
  | cons p rest ih =>
    simp only [List.map_cons, List.flatten_cons, stoppedIds, List.filterMap_append,
      List.filterMap_cons, List.filterMap_nil] at ih ⊢
    simp [ih]

theorem startedIds_stopTrace (v : List (String × Handle)) :
    startedIds ((v.map (fun p => [Ev.logStopping p.1, Ev.sigterm p.1 p.2.pid])).flatten)
      = [] := by
  induction v with
  | nil => rfl
  | cons p rest ih =>
    simp only [List.map_cons, List.flatten_cons, startedIds, List.filterMap_append,
      List.filterMap_cons, List.filterMap_nil] at ih ⊢
    simp [ih]

theorem hasKey_stopMissing (s : SupState) (d : List String) (id : String) :
    hasKey (stopMissing s d).1.processes id = true
      ↔ hasKey s.processes id = true ∧ id ∈ d := by
  simp only [stopMissing, hasKey, List.any_eq_true, List.mem_filter, beq_iff_eq]
  constructor
  · rintro ⟨p, ⟨hp, hc⟩, rfl⟩
    exact ⟨⟨p, hp, rfl⟩, List.elem_iff.mp hc⟩
  · rintro ⟨⟨p, hp, rfl⟩, hd⟩
    exact ⟨p, ⟨hp, List.elem_iff.mpr hd⟩, rfl⟩

theorem stopMissing_stoppedIds (s : SupState) (d : List String) (id : String) :
    id ∈ stoppedIds (stopMissing s d).2
      ↔ id ∈ regKeys s.processes ∧ id ∉ d := by
  simp only [stopMissing]
  rw [stoppedIds_stopTrace]
  simp only [List.mem_map, List.mem_filter, regKeys]
  constructor
  · rintro ⟨p, ⟨hp, hc⟩, rfl⟩
    refine ⟨⟨p, hp, rfl⟩, fun hd => ?_⟩
    simp [hd] at hc
  · rintro ⟨⟨p, hp, rfl⟩, hd⟩
    exact ⟨p, ⟨hp, by simpa using hd⟩, rfl⟩

theorem stopMissing_startedIds (s : SupState) (d : List String) :
    startedIds (stopMissing s d).2 = [] := by
  simp only [stopMissing]
  exact startedIds_stopTrace _

theorem stopMissing_lookup (s : SupState) (d : List String) {id : String}
    (hd : id ∈ d) :
    lookupReg (stopMissing s d).1.processes id = lookupReg s.processes id := by
  simp only [stopMissing]
  rw [lookupReg_filter_key]
  rw [if_pos (show d.contains id = true by simp [hd])]

theorem stopMissing_noop (s : SupState) (d : List String)
    (h : ∀ p ∈ s.processes, p.1 ∈ d) :
    stopMissing s d = (s, []) := by
  have h1 : s.processes.filter (fun p => d.contains p.1) = s.processes :=
    List.filter_eq_self.mpr (fun p hp => by simp [h p hp])
  have h2 : s.processes.filter (fun p => !(d.contains p.1)) = [] :=
    List.filter_eq_nil_iff.mpr (fun p hp => by simp [h p hp])
  simp only [stopMissing]
  rw [h1, h2]
  rfl

/-! ### Reconciliation-pass lemmas -/

theorem hasKey_of_mem {r : Registry} {p : String × Handle} (hp : p ∈ r) :
    hasKey r p.1 = true :=
  (hasKey_iff_mem r p.1).mpr (List.mem_map_of_mem _ hp)

theorem hasKey_reconcilePass (s : SupState) (cs : List BotConfig) (id : String) :
    hasKey (reconcilePass s cs).1.processes id = true ↔ id ∈ desiredIds cs := by
  simp only [reconcilePass]
  rw [hasKey_stopMissing, hasKey_spawnLoop]
  constructor
  · rintro ⟨_, h2⟩
    exact h2
  · intro h
    exact ⟨Or.inr h, h⟩

theorem reconcilePass_startedIds (s : SupState) (cs : List BotConfig) (id : String) :
    id ∈ startedIds (reconcilePass s cs).2
      ↔ id ∈ desiredIds cs ∧ hasKey s.processes id = false := by
  simp only [reconcilePass]
  rw [startedIds_append]
  simp only [List.mem_append]
  rw [spawnLoop_startedIds, stopMissing_startedIds]
  simp

theorem reconcilePass_stoppedIds (s : SupState) (cs : List BotConfig) (id : String) :
    id ∈ stoppedIds (reconcilePass s cs).2
      ↔ hasKey s.processes id = true ∧ id ∉ desiredIds cs := by
  simp only [reconcilePass]
  rw [stoppedIds_append]
  simp only [List.mem_append]
  rw [spawnLoop_stoppedIds, stopMissing_stoppedIds, ← hasKey_iff_mem]
  simp only [List.not_mem_nil, false_or]
  constructor
  · rintro ⟨hk, hnd⟩
    rcases (hasKey_spawnLoop cs s id).mp hk with h | h
    · exact ⟨h, hnd⟩
    · exact absurd h hnd
  · rintro ⟨hk, hnd⟩
    exact ⟨(hasKey_spawnLoop cs s id).mpr (Or.inl hk), hnd⟩

theorem reconcilePass_lookup_untouched (s : SupState) (cs : List BotConfig)
    {id : String} {h : Handle} (hl : lookupReg s.processes id = some h)
    (hd : id ∈ desiredIds cs) :
    lookupReg (reconcilePass s cs).1.processes id = some h := by
  simp only [reconcilePass]
  rw [stopMissing_lookup _ _ hd]
  exact spawnLoop_lookup_some cs s hl

theorem reconcilePass_idem (s : SupState) (cs : List BotConfig)
    (h : ∀ id, hasKey s.processes id = true ↔ id ∈ desiredIds cs) :
    reconcilePass s cs = (s, []) := by
  simp only [reconcilePass]
  rw [spawnLoop_noop cs s (fun c hc => (h c.agentId).mpr (List.mem_map_of_mem _ hc))]
  rw [stopMissing_noop s _ (fun p hp => (h p.1).mp (hasKey_of_mem hp))]
  rfl

/-! ### Key uniqueness along reachable states -/

theorem nodup_keys_spawnLoop (cs : List BotConfig) (s : SupState)
    (h : (regKeys s.processes).Nodup) :
    (regKeys (spawnLoop s cs).1.processes).Nodup := by
  induction cs generalizing s with
  | nil => simpa [spawnLoop]
  | cons c rest ih =>
    simp only [spawnLoop]
    by_cases hk : hasKey s.processes c.agentId = true
    · rw [spawnBot_of_hasKey c.clientId hk]
      exact ih s h
    · have hk' : hasKey s.processes c.agentId = false := by simpa using hk
      rw [spawnBot_of_not_hasKey c.clientId hk']
      apply ih
      rw [regKeys_append]
      rw [List.nodup_append]
      refine ⟨h, by simp [regKeys], ?_⟩
      intro x hx hx1
      simp [regKeys] at hx1
      rw [hx1, ← hasKey_iff_mem, hk'] at hx
      exact Bool.false_ne_true hx

theorem nodup_keys_filter (r : Registry) (f : String × Handle → Bool)
    (h : (regKeys r).Nodup) : (regKeys (r.filter f)).Nodup :=
  List.Nodup.sublist ((List.filter_sublist _).map _) h

theorem nodup_keys_stopMissing (s : SupState) (d : List String)
    (h : (regKeys s.processes).Nodup) :
    (regKeys (stopMissing s d).1.processes).Nodup := by
  simp only [stopMissing]
  exact nodup_keys_filter _ _ h

theorem nodup_keys_onExit (s : SupState) (a : String)
    (h : (regKeys s.processes).Nodup) :
    (regKeys (onExit s a).1.processes).Nodup := by
  simp only [onExit]
  exact nodup_keys_filter _ _ h

theorem reach_nodup_keys {s : SupState} (h : Reach s) :
    (regKeys s.processes).Nodup := by
  induction h with
  | init => simp [initState, regKeys]
  | tick s o _ ih =>
    simp only [reconcile]
    exact nodup_keys_stopMissing _ _ (nodup_keys_spawnLoop _ _ ih)
  | exit s a _ ih => exact nodup_keys_onExit s a ih

/-! ### Environment lemmas -/

theorem lookupKV_map_set_self (e : Env) (k v : String)
    (h : e.any (fun p => p.1 == k) = true) :
    lookupKV (e.map (fun p => if p.1 == k then (k, v) else p)) k = some v := by
  induction e with
  | nil => simp at h
  | cons p rest ih =>
    simp only [List.any_cons, Bool.or_eq_true, beq_iff_eq] at h
    by_cases hp : p.1 = k
    · simp [lookupKV, hp]
    · rcases h with h | h
      · exact absurd h hp
      · simp only [List.map_cons]
        rw [if_neg (show ¬((p.1 == k) = true) by simpa using hp)]
        simp only [lookupKV]
        rw [if_neg (show ¬((p.1 == k) = true) by simpa using hp)]
        exact ih h

theorem lookupKV_append_last (e : Env) (k v : String)
    (h : e.any (fun p => p.1 == k) = false) :
    lookupKV (e ++ [(k, v)]) k = some v := by
  induction e with
  | nil => simp [lookupKV]
  | cons p rest ih =>
    simp only [List.any_cons, Bool.or_eq_false_iff, beq_eq_false_iff_ne] at h
    simp only [List.cons_append, lookupKV]
    rw [if_neg (by simpa using h.1)]
    exact ih (by simpa using h.2)

theorem lookupKV_setKV_self (e : Env) (k v : String) :
    lookupKV (setKV e k v) k = some v := by
  unfold setKV
  by_cases h : e.any (fun p => p.1 == k) = true
  · rw [if_pos h]
    exact lookupKV_map_set_self e k v h
  · rw [if_neg h]
    exact lookupKV_append_last e k v (Bool.eq_false_iff.mpr h)

theorem lookupKV_map_set_other (e : Env) (k v k' : String) (h : k' ≠ k) :
    lookupKV (e.map (fun p => if p.1 == k then (k, v) else p)) k'
      = lookupKV e k' := by
  induction e with
  | nil => rfl
  | cons p rest ih =>
    by_cases hp : p.1 = k
    · simp only [List.map_cons]
      rw [if_pos (by simpa using hp)]
      simp only [lookupKV]
      rw [if_neg (by simpa using fun e => h e.symm)]
      rw [if_neg (by simp [hp]; exact fun e => h e.symm)]
      exact ih
    · simp only [List.map_cons]
      rw [if_neg (by simpa using hp)]
      simp only [lookupKV]
      by_cases hpk : p.1 = k'
      · rw [if_pos (by simpa using hpk), if_pos (by simpa using hpk)]
      · rw [if_neg (by simpa using hpk), if_neg (by simpa using hpk)]
        exact ih

theorem lookupKV_append_other (e : Env) (k v k' : String) (h : k' ≠ k) :
    lookupKV (e ++ [(k, v)]) k' = lookupKV e k' := by
  induction e with
  | nil =>
    simp only [List.nil_append, lookupKV]
    rw [if_neg (by simpa using fun e => h e.symm)]
  | cons p rest ih =>
    simp only [List.cons_append, lookupKV]
    by_cases hpk : p.1 = k'
    · rw [if_pos (by simpa using hpk), if_pos (by simpa using hpk)]
    · rw [if_neg (by simpa using hpk), if_neg (by simpa using hpk)]
      exact ih

theorem lookupKV_setKV_other (e : Env) (k v k' : String) (h : k' ≠ k) :
    lookupKV (setKV e k v) k' = lookupKV e k' := by
  unfold setKV
  by_cases ha : e.any (fun p => p.1 == k) = true
  · rw [if_pos ha]
    exact lookupKV_map_set_other e k v k' h
  · rw [if_neg ha]
    exact lookupKV_append_other e k v k' h

/-! ### Exit-observer lemmas -/

theorem onExit_hasKey (s : SupState) (a : String) :
    hasKey (onExit s a).1.processes a = false := by
  simp only [onExit]
  induction s.processes with
  | nil => rfl
  | cons p rest ih =>
    by_cases hp : p.1 = a <;> simp [List.filter_cons, hasKey, hp]

/-! ### Fetch and reconcile decomposition lemmas -/

theorem startedIds_fetchLog (o : FetchOutcome) :
    startedIds (fetchActiveConfigs o).2 = [] := by
  unfold fetchActiveConfigs
  cases fetchBody o <;> simp [startedIds]

theorem stoppedIds_fetchLog (o : FetchOutcome) :
    stoppedIds (fetchActiveConfigs o).2 = [] := by
  unfold fetchActiveConfigs
  cases fetchBody o <;> simp [stoppedIds]

theorem reconcile_eq (s : SupState) (o : FetchOutcome) :
    reconcile s o
      = ((reconcilePass s (fetchActiveConfigs o).1).1,
         (fetchActiveConfigs o).2 ++ (reconcilePass s (fetchActiveConfigs o).1).2) :=
  rfl

theorem reconcile_startedIds (s : SupState) (o : FetchOutcome) (id : String) :
    id ∈ startedIds (reconcile s o).2
      ↔ id ∈ desiredIds (fetchActiveConfigs o).1 ∧ hasKey s.processes id = false := by
  rw [reconcile_eq]
  simp only [startedIds_append, List.mem_append, startedIds_fetchLog,
    List.not_mem_nil, false_or]
  exact reconcilePass_startedIds s _ id

theorem reconcile_stoppedIds (s : SupState) (o : FetchOutcome) (id : String) :
    id ∈ stoppedIds (reconcile s o).2
      ↔ hasKey s.processes id = true ∧ id ∉ desiredIds (fetchActiveConfigs o).1 := by
  rw [reconcile_eq]
  simp only [stoppedIds_append, List.mem_append, stoppedIds_fetchLog,
    List.not_mem_nil, false_or]
  exact reconcilePass_stoppedIds s _ id

theorem hasKey_reconcile (s : SupState) (o : FetchOutcome) (id : String) :
    hasKey (reconcile s o).1.processes id = true
      ↔ id ∈ desiredIds (fetchActiveConfigs o).1 := by
  rw [reconcile_eq]
  exact hasKey_reconcilePass s _ id

/-! ### Claim theorems -/

/-- **C1** (diff correctness and idempotence): for every registry state and
every desired set returned by the config fetch, one reconciliation pass
SIGTERMs exactly the running identities outside the desired set, spawns
exactly the desired identities that were not running, keeps the registry
entry of every identity in the intersection unchanged, ends with the
registry key set equal to the desired identity set, and a second pass with
the same fetch outcome performs no start or stop action and leaves the
state unchanged (its trace is only the fetch log). -/
theorem reconcile_diff_correct (s : SupState) (o : FetchOutcome) :
    (∀ id, id ∈ stoppedIds (reconcile s o).2
       ↔ hasKey s.processes id = true ∧ id ∉ desiredIds (fetchActiveConfigs o).1) ∧
    (∀ id, id ∈ startedIds (reconcile s o).2
       ↔ id ∈ desiredIds (fetchActiveConfigs o).1 ∧ hasKey s.processes id = false) ∧
    (∀ id h, lookupReg s.processes id = some h →
       id ∈ desiredIds (fetchActiveConfigs o).1 →
       lookupReg (reconcile s o).1.processes id = some h) ∧
    (∀ id, hasKey (reconcile s o).1.processes id = true
       ↔ id ∈ desiredIds (fetchActiveConfigs o).1) ∧
    reconcile (reconcile s o).1 o = ((reconcile s o).1, (fetchActiveConfigs o).2) := by
  refine ⟨reconcile_stoppedIds s o, reconcile_startedIds s o, ?_, hasKey_reconcile s o, ?_⟩
  · intro id h hl hd
    rw [reconcile_eq]
    exact reconcilePass_lookup_untouched s _ hl hd
  · rw [reconcile_eq (reconcile s o).1 o]
    rw [reconcilePass_idem _ _ (hasKey_reconcile s o)]
    simp

/-- Witness for C1 at the spec's own scenario: registry `{A, B}`, desired
set `{B, C}` — `A` is stopped, `C` is started, `B`'s entry is untouched,
and a second pass with the same outcome changes nothing. -/
theorem reconcile_diff_correct_witness :
    "A" ∈ stoppedIds (reconcile stateAB fetchBC).2 ∧
    "C" ∈ startedIds (reconcile stateAB fetchBC).2 ∧
    lookupReg (reconcile stateAB fetchBC).1.processes "B" = some ⟨1, "B", "cB"⟩ ∧
    hasKey (reconcile stateAB fetchBC).1.processes "A" = false ∧
    reconcile (reconcile stateAB fetchBC).1 fetchBC = ((reconcile stateAB fetchBC).1, []) := by
  obtain ⟨h1, h2, h3, h4, h5⟩ := reconcile_diff_correct stateAB fetchBC
  refine ⟨(h1 "A").mpr (by decide), (h2 "C").mpr (by decide),
    h3 "B" ⟨1, "B", "cB"⟩ (by decide) (by decide), ?_, by simpa using h5⟩
  have := h4 "A"
  revert this
  decide

/-- **C2**: `fetchActiveConfigs` is total — every outcome of the remote
request maps to a plain value, never an exception.  A network rejection, a
non-2xx status, a body that is not JSON, and a truthy non-array body all
log the failure and yield the empty list; a JSON `null` body is coalesced
to the empty list by `(list || [])` without a log; an array body yields
one `{agentId, clientId}` record per element. -/
theorem fetchActiveConfigs_never_raises (o : FetchOutcome) :
    fetchActiveConfigs o =
      match o with
      | .response status (.parsed (.jlist items)) =>
        if respOk status then
          (items.map (fun c => ⟨c.agentId, c.clientId⟩), [])
        else ([], [Ev.logFetchFailed])
      | .response status (.parsed .jnull) =>
        if respOk status then ([], []) else ([], [Ev.logFetchFailed])
      | _ => ([], [Ev.logFetchFailed]) := by
  cases o with
  | netError => rfl
  | response status body =>
    by_cases h : respOk status <;>
      cases body with
      | invalid => simp [fetchActiveConfigs, fetchBody, h]
      | parsed v => cases v <;> simp [fetchActiveConfigs, fetchBody, h]

/-- **C3**: launching an identity that is already in the registry is a
no-op — the state is returned unchanged and no process-creation event (and
no log line) is emitted; moreover in every reachable supervisor state the
registry keys are pairwise distinct, so at most one handle exists per
identity. -/
theorem launch_idempotent (s : SupState) (a cid : String) (hR : Reach s)
    (h : hasKey s.processes a = true) :
    spawnBot s a cid = (s, []) ∧ (regKeys s.processes).Nodup :=
  ⟨spawnBot_of_hasKey cid h, reach_nodup_keys hR⟩

/-- Witness for C3: after one tick that launched `A`, launching `A` again
(with a different clientId) changes nothing. -/
theorem launch_idempotent_witness :
    spawnBot stateA "A" "c2" = (stateA, []) ∧ (regKeys stateA.processes).Nodup :=
  launch_idempotent stateA "A" "c2" (Reach.tick initState fetchA Reach.init) (by decide)

/-- **C4 counterexample**: the claim says a spawn-failed identity "remains
absent from the registry".  In the source, `spawnBot` inserts the child
into the registry unconditionally (`processes.set(agentId, child)`,
line 54) before any spawn failure can be observed: Node's `spawn` returns
a `ChildProcess` synchronously and reports failure only through later
`error`/`exit` events, and the supervisor state after the tick is the same
whether or not the spawn will fail.  So in the very tick in which `A`'s
spawn fails, `A` IS in the registry — it becomes absent only once the exit
observer fires. -/
theorem spawn_failure_transiently_registered :
    hasKey (reconcilePass initState [⟨"A", "c1"⟩]).1.processes "A" = true := by
  decide

/-- **C4 (amended)**: when the spawn of one identity's process fails, every
launch attempt in the tick still proceeds (each desired identity not yet
running is spawned, independently of the others), the failed identity is
inserted at spawn time and is removed — with a logged warning — when its
process's exit is observed, after which it is absent from the registry, and
the next tick retries it while it is still desired. -/
theorem spawn_failure_retry_next_tick (s : SupState) (cs : List BotConfig)
    (a : String) (ha : a ∈ desiredIds cs) :
    (∀ c ∈ cs, hasKey s.processes c.agentId = false →
        c.agentId ∈ startedIds (reconcilePass s cs).2) ∧
    (hasKey s.processes a = false →
        hasKey (reconcilePass s cs).1.processes a = true) ∧
    hasKey (onExit (reconcilePass s cs).1 a).1.processes a = false ∧
    Ev.logExited a ∈ (onExit (reconcilePass s cs).1 a).2 ∧
    a ∈ startedIds (reconcilePass (onExit (reconcilePass s cs).1 a).1 cs).2 := by
  refine ⟨?_, ?_, onExit_hasKey _ a, by simp [onExit], ?_⟩
  · intro c hc hck
    exact (reconcilePass_startedIds s cs c.agentId).mpr
      ⟨List.mem_map_of_mem _ hc, hck⟩
  · intro _
    exact (hasKey_reconcilePass s cs a).mpr ha
  · exact (reconcilePass_startedIds _ cs a).mpr ⟨ha, onExit_hasKey _ a⟩

/-- Witness for C4 (amended): from startup, a tick with desired set
`{A, B}` in which `A`'s spawn fails — both are attempted, `A` is present
until its exit event, absent afterwards, and restarted next tick. -/
theorem spawn_failure_retry_next_tick_witness :
    "B" ∈ startedIds (reconcilePass initState [⟨"A", "cA"⟩, ⟨"B", "cB"⟩]).2 ∧
    hasKey (reconcilePass initState [⟨"A", "cA"⟩, ⟨"B", "cB"⟩]).1.processes "A" = true ∧
    hasKey (onExit (reconcilePass initState [⟨"A", "cA"⟩, ⟨"B", "cB"⟩]).1 "A").1.processes "A" = false ∧
    "A" ∈ startedIds (reconcilePass
      (onExit (reconcilePass initState [⟨"A", "cA"⟩, ⟨"B", "cB"⟩]).1 "A").1
      [⟨"A", "cA"⟩, ⟨"B", "cB"⟩]).2 := by
  obtain ⟨h1, h2, h3, _, h5⟩ :=
    spawn_failure_retry_next_tick initState [⟨"A", "cA"⟩, ⟨"B", "cB"⟩] "A" (by decide)
  exact ⟨h1 ⟨"B", "cB"⟩ (by decide) (by decide), h2 (by decide), h3, h5⟩

/-- **C5**: if the fetch yields the empty list (in particular after any
fetch failure), one reconciliation pass SIGTERMs every running identity,
empties the registry, and starts nothing. -/
theorem empty_fetch_stops_all (s : SupState) (o : FetchOutcome)
    (h : (fetchActiveConfigs o).1 = []) :
    (∀ id, id ∈ stoppedIds (reconcile s o).2 ↔ hasKey s.processes id = true) ∧
    startedIds (reconcile s o).2 = [] ∧
    (reconcile s o).1.processes = [] := by
  refine ⟨?_, ?_, ?_⟩
  · intro id
    rw [reconcile_stoppedIds s o id, h]
    simp [desiredIds]
  · rw [List.eq_nil_iff_forall_not_mem]
    intro id hid
    rw [reconcile_startedIds s o id, h] at hid
    simp [desiredIds] at hid
  · rw [reconcile_eq, h]
    simp only [reconcilePass, spawnLoop, stopMissing]
    exact List.filter_eq_nil_iff.mpr (fun p _ => by simp [desiredIds])

/-- Witness for C5: a network failure while `A` and `B` are running stops
both and empties the registry. -/
theorem empty_fetch_stops_all_witness :
    (fetchActiveConfigs FetchOutcome.netError).1 = [] ∧
    "A" ∈ stoppedIds (reconcile stateAB FetchOutcome.netError).2 ∧
    "B" ∈ stoppedIds (reconcile stateAB FetchOutcome.netError).2 ∧
    (reconcile stateAB FetchOutcome.netError).1.processes = [] := by
  obtain ⟨h1, _, h3⟩ := empty_fetch_stops_all stateAB FetchOutcome.netError rfl
  exact ⟨rfl, (h1 "A").mpr (by decide), (h1 "B").mpr (by decide), h3⟩

/-- **C6**: when a running identity's process exits while still desired,
the exit observer removes it from the registry immediately (and logs the
exit), and the next reconciliation pass — seeing it desired but not
running — spawns it again and reinserts it.  The relaunch is unconditional:
the statement holds for every state and every fetch outcome whose desired
set contains the identity, so no backoff or crash-loop limit exists. -/
theorem crash_recovery_relaunch (s : SupState) (o : FetchOutcome) (a : String)
    (_hrun : hasKey s.processes a = true)
    (hdes : a ∈ desiredIds (fetchActiveConfigs o).1) :
    hasKey (onExit s a).1.processes a = false ∧
    Ev.logExited a ∈ (onExit s a).2 ∧
    a ∈ startedIds (reconcile (onExit s a).1 o).2 ∧
    hasKey (reconcile (onExit s a).1 o).1.processes a = true := by
  refine ⟨onExit_hasKey s a, by simp [onExit], ?_, ?_⟩
  · exact (reconcile_startedIds _ o a).mpr ⟨hdes, onExit_hasKey s a⟩
  · exact (hasKey_reconcile _ o a).mpr hdes

/-- Witness for C6: `B` (running, desired by `fetchBC`) crashes; it is
absent right after the exit callback and started again by the next tick. -/
theorem crash_recovery_relaunch_witness :
    hasKey (onExit stateAB "B").1.processes "B" = false ∧
    Ev.logExited "B" ∈ (onExit stateAB "B").2 ∧
    "B" ∈ startedIds (reconcile (onExit stateAB "B").1 fetchBC).2 ∧
    hasKey (reconcile (onExit stateAB "B").1 fetchBC).1.processes "B" = true :=
  crash_recovery_relaunch stateAB fetchBC "B" (by decide) (by decide)

/-- **C7**: for a running identity, a later LaunchSpec with a different
clientId changes nothing — the registry entry (including the old clientId
and pid) is preserved and no `spawn` happens for that identity, whatever
the content of the configs; only presence of the identity in the desired
set matters. -/
theorem launchSpec_content_ignored (s : SupState) (cs : List BotConfig)
    (a : String) (h : Handle)
    (hl : lookupReg s.processes a = some h) (hd : a ∈ desiredIds cs) :
    lookupReg (reconcilePass s cs).1.processes a = some h ∧
    ∀ cid pid, Ev.spawned a cid pid ∉ (reconcilePass s cs).2 := by
  refine ⟨reconcilePass_lookup_untouched s cs hl hd, ?_⟩
  intro cid pid hmem
  have hstart : a ∈ startedIds (reconcilePass s cs).2 := by
    simp only [startedIds, List.mem_filterMap]
    exact ⟨Ev.spawned a cid pid, hmem, rfl⟩
  have h2 := (reconcilePass_startedIds s cs a).mp hstart
  rw [hasKey_of_lookup hl] at h2
  simp at h2

/-- Witness for C7: `A` was launched with clientId `c1`; a later pass whose
spec for `A` carries clientId `c2` leaves the old handle (pid 0, clientId
`c1`) in place and spawns nothing for `A`. -/
theorem launchSpec_content_ignored_witness :
    lookupReg (reconcilePass stateA [⟨"A", "c2"⟩]).1.processes "A"
      = some ⟨0, "A", "c1"⟩ ∧
    ∀ cid pid, Ev.spawned "A" cid pid ∉ (reconcilePass stateA [⟨"A", "c2"⟩]).2 :=
  launchSpec_content_ignored stateA [⟨"A", "c2"⟩] "A" ⟨0, "A", "c1"⟩
    (by decide) (by decide)

/-- **C8**: the child environment is the parent environment overridden with
`AGENT_ID` and `DISCORD_CLIENT_ID`, every other key is passed through
unchanged, and `DISCORD_TOKEN` is explicitly set to the empty string — on
which the worker's `resolveToken` guard (`direct && direct.trim().length >
0`) is false, so the worker never uses a parent-held credential and must
resolve its own from Convex. -/
theorem child_env_overrides (parent : Env) (a c k : String)
    (hk : k ≠ "AGENT_ID" ∧ k ≠ "DISCORD_CLIENT_ID" ∧ k ≠ "DISCORD_TOKEN") :
    lookupKV (childEnv parent a c) "DISCORD_TOKEN" = some "" ∧
    lookupKV (childEnv parent a c) "AGENT_ID" = some a ∧
    lookupKV (childEnv parent a c) "DISCORD_CLIENT_ID" = some c ∧
    usesEnvToken (lookupKV (childEnv parent a c) "DISCORD_TOKEN") = false ∧
    lookupKV (childEnv parent a c) k = lookupKV parent k := by
  unfold childEnv
  refine ⟨lookupKV_setKV_self _ _ _, ?_, ?_, ?_, ?_⟩
  · rw [lookupKV_setKV_other _ _ _ _ (by decide),
        lookupKV_setKV_other _ _ _ _ (by decide)]
    exact lookupKV_setKV_self _ _ _
  · rw [lookupKV_setKV_other _ _ _ _ (by decide)]
    exact lookupKV_setKV_self _ _ _
  · rw [lookupKV_setKV_self]
    rfl
  · rw [lookupKV_setKV_other _ _ _ _ hk.2.2, lookupKV_setKV_other _ _ _ _ hk.2.1,
        lookupKV_setKV_other _ _ _ _ hk.1]

/-- Witness for C8: a parent environment that itself holds a secret
`DISCORD_TOKEN` and a `PATH`; the child sees an empty token, the identity
overrides, and the untouched `PATH`. -/
theorem child_env_overrides_witness :
    lookupKV (childEnv [("PATH", "/usr/bin"), ("DISCORD_TOKEN", "secret")]
        "agent1" "client1") "DISCORD_TOKEN" = some "" ∧
    lookupKV (childEnv [("PATH", "/usr/bin"), ("DISCORD_TOKEN", "secret")]
        "agent1" "client1") "AGENT_ID" = some "agent1" ∧
    lookupKV (childEnv [("PATH", "/usr/bin"), ("DISCORD_TOKEN", "secret")]
        "agent1" "client1") "DISCORD_CLIENT_ID" = some "client1" ∧
    usesEnvToken (lookupKV (childEnv [("PATH", "/usr/bin"), ("DISCORD_TOKEN", "secret")]
        "agent1" "client1") "DISCORD_TOKEN") = false ∧
    lookupKV (childEnv [("PATH", "/usr/bin"), ("DISCORD_TOKEN", "secret")]
        "agent1" "client1") "PATH"
      = lookupKV [("PATH", "/usr/bin"), ("DISCORD_TOKEN", "secret")] "PATH" :=
  child_env_overrides [("PATH", "/usr/bin"), ("DISCORD_TOKEN", "secret")]
    "agent1" "client1" "PATH" (by decide)

/-- **C9**: the exit observer deletes by key only.  Scenario: `A` is
launched (pid 0), stopped by a tick with empty desired set (SIGTERM to
pid 0, entry removed), and relaunched by a later tick (pid 1).  When the
pid-0 process's `exit` event finally fires, the callback — which captured
only `agentId` — removes the registry entry that now holds the live pid-1
handle, without checking that the entry belongs to the process that
exited. -/
theorem exit_handler_deletes_by_key :
    Ev.sigterm "agentA" 0 ∈ (reconcilePass staleTick1 []).2 ∧
    lookupReg staleTick3.processes "agentA" = some ⟨1, "agentA", "c1"⟩ ∧
    hasKey (onExit staleTick3 "agentA").1.processes "agentA" = false := by
  decide

/-- **C10**: every liveness request, in every supervisor state, is answered
with HTTP 200 and a body holding the overall-health flag `ok = true` and
exactly the identities currently in the registry, and handling the request
leaves the supervisor state unchanged. -/
theorem health_endpoint_readonly (s : SupState) :
    (healthHandler s).1.status = 200 ∧
    (healthHandler s).1.ok = true ∧
    (healthHandler s).1.processes = regKeys s.processes ∧
    (∀ id, id ∈ (healthHandler s).1.processes ↔ hasKey s.processes id = true) ∧
    (healthHandler s).2 = s :=
  ⟨rfl, rfl, rfl, fun id => (hasKey_iff_mem s.processes id).symm, rfl⟩

end Supervisor
